import Mathlib

/-!
Verification of the `gi` game module of `stardb-exporter`
(`src/games/gi.rs`): the achievement extractor (`sniff`), the
pull-history scanner (`pulls`) and the install-path resolver
(`game_path`).

The embedding is shallow.  Pure control flow, string processing and the
literal constants of `gi.rs` are translated directly.  External
collaborators (the `artifactarium` packet sniffer, the `regex` engine
applied to the log-file pattern, the filesystem and the `ureq` network
probe) are modelled as explicit inputs: a run of the code is a function
of the data those collaborators hand it.
-/

namespace GI

/-! ### Achievement extractor (`sniff`, gi.rs lines 16-58)

`sniff` receives raw packets on a channel and feeds them to
`GameSniffer::receive_packet`, which returns `Option<GamePacket>`.  Only
the `Some(GamePacket::Commands(commands))` outcome is consumed; every
other outcome is skipped by the `let ... else continue`.  We model the
packet stream by what the (external) sniffer produces for each received
packet: `some cmds` for a packet decoded to a command batch, `none` for
every other outcome.  Key loading (`load_keys`, the KeyStore component)
happens before the loop and is not part of the extraction loop modelled
here. -/

/-- One decoded `(id, status)` record of an `AchievementAllDataNotify`
payload.  `quest.id` is a `u32`, `quest.status.value()` an `i32`. -/
structure AchRecord where
  id : Nat
  status : Int
deriving DecidableEq, Repr

/-- A decoded application command: its numeric `command_id` and the
result of `command.parse_proto::<AchievementAllDataNotify>()` on its
payload (`none` models a `parse_proto` failure; the payload itself lives
in the external protobuf library, so the command carries the parse
outcome). -/
structure Command where
  command_id : Nat
  parse : Option (List AchRecord)
deriving DecidableEq, Repr

/-- The error of `sniff`: `anyhow!("No achievements found")`. -/
inductive SniffError where
  | notFound
deriving DecidableEq, Repr

/-- The inner quest loop of `sniff` (gi.rs lines 37-43): for each quest,
push `quest.id` when `achievement_ids.contains(&quest.id)` and
`quest.status.value()` is `2` or `3`. -/
def pushQuests (ids : List Nat) (acc : List Nat) (quests : List AchRecord) : List Nat :=
  quests.foldl
    (fun a q =>
      if ids.contains q.id && (q.status == 2 || q.status == 3) then a ++ [q.id] else a)
    acc

/-- Processing of one command (gi.rs lines 31-45): commands whose id is
not `command_id::AchievementAllDataNotify` are ignored; on a matching
command, if `achievements` is already non-empty the command is skipped
(`continue`), otherwise a successful `parse_proto` feeds the quest loop
and a failed one is ignored. -/
def sniffStep (notifyId : Nat) (ids : List Nat) (ach : List Nat) (c : Command) : List Nat :=
  if c.command_id == notifyId then
    if ach.isEmpty then
      match c.parse with
      | some quests => pushQuests ids ach quests
      | none => ach
    else ach
  else ach

/-- The `for command in commands` loop over one packet's command batch. -/
def processPacket (notifyId : Nat) (ids : List Nat) (ach : List Nat)
    (cmds : List Command) : List Nat :=
  cmds.foldl (sniffStep notifyId ids) ach

/-- The `while let Ok(data) = device_rx.recv()` loop (gi.rs lines
25-51): each list element is what the sniffer produced for one received
packet; the list ending models the channel closing.  After a packet
whose processing leaves `achievements` non-empty the loop breaks. -/
def sniffRun (notifyId : Nat) (ids : List Nat) :
    List (Option (List Command)) → List Nat → List Nat
  | [], ach => ach
  | pkt :: rest, ach =>
    match pkt with
    | none => sniffRun notifyId ids rest ach
    | some cmds =>
      let ach2 := processPacket notifyId ids ach cmds
      if ach2.isEmpty then sniffRun notifyId ids rest ach2 else ach2

/-- `sniff` (gi.rs lines 16-58), post key-load: run the receive loop
from an empty `achievements` vector; if it is still empty at the end,
fail with `No achievements found`, otherwise return it. -/
def sniff (notifyId : Nat) (ids : List Nat)
    (packets : List (Option (List Command))) : Except SniffError (List Nat) :=
  let ach := sniffRun notifyId ids packets []
  if ach.isEmpty then .error .notFound else .ok ach

/-! Specification-side helpers used to state the claims. -/

/-- The filtered ID list a quest list contributes: IDs in the interest
set whose status is one of the two complete codes. -/
def filteredIds (ids : List Nat) (quests : List AchRecord) : List Nat :=
  (quests.filter (fun q => ids.contains q.id && (q.status == 2 || q.status == 3))).map
    AchRecord.id

/-- What a single command contributes when it is the first one examined
with `achievements` still empty: the filtered IDs of its decoded record
list, or `[]` when the command does not qualify. -/
def cmdResult (notifyId : Nat) (ids : List Nat) (c : Command) : List Nat :=
  if c.command_id == notifyId then
    match c.parse with
    | some quests => filteredIds ids quests
    | none => []
  else []

/-- All commands of the stream, in arrival order (packets flattened). -/
def flatCommands (packets : List (Option (List Command))) : List Command :=
  (packets.map (fun p => p.getD [])).flatten

/-- First non-empty value of `f` along a list, or `[]`. -/
def firstNonEmpty (f : α → List Nat) : List α → List Nat
  | [] => []
  | x :: xs => if (f x).isEmpty then firstNonEmpty f xs else f x

/-- What one received packet contributes when `achievements` is still
empty. -/
def pktResult (notifyId : Nat) (ids : List Nat) : Option (List Command) → List Nat
  | none => []
  | some cmds => firstNonEmpty (cmdResult notifyId ids) cmds

/-! ### Pull-history scanner (`pulls`, gi.rs lines 72-113)

`pulls` resolves the game path, lists `webCaches`, keeps the entries
whose file name matches `^\d+\.\d+\.\d+\.\d+$`, sorts them (`Vec::sort`,
ascending) and indexes the last element; it then reads the selected
version directory's `Cache/Cache_Data/data_2` file, splits its lossy
UTF-8 decoding on `"1/0/"` and scans the pieces in reverse, probing the
first `https`/`getGachaLog` record's URL over the network.

The filesystem and the network are external: a run is a function of the
directory listing (the file names `read_dir` yields; entries whose
name is not valid UTF-8 give `unwrap_or_default()`'s empty string and
never match), the decoded cache-file text, and the probe outcome per
URL.  The entries share the `webCaches` parent, so `Vec<PathBuf>::sort`
orders them exactly as the byte order of their file names; `\d` is
modelled as the ASCII digits, the only ones the claims exercise.
Propagated I/O errors of `game_path()?`, `read_dir()?` and
`std::fs::read(..)?` are upstream of the logic under claim and are not
modelled. -/

/-- Byte-lexicographic strict order on character lists, matching
`Ord` on Rust strings (UTF-8 byte order and code-point order agree). -/
def lexLt : List Char → List Char → Bool
  | [], [] => false
  | [], _ :: _ => true
  | _ :: _, [] => false
  | a :: as, b :: bs => if a < b then true else if a = b then lexLt as bs else false

/-- `a <= b` on strings, as `Vec::sort` compares the path file names. -/
def strLe (a b : String) : Bool := !lexLt b.data a.data

/-- Stable insertion of one element into an ascending list. -/
def insertAsc (x : String) : List String → List String
  | [] => [x]
  | y :: ys => if strLe x y then x :: y :: ys else y :: insertAsc x ys

/-- Stable ascending sort, the behaviour of `Vec::sort`. -/
def sortAsc : List String → List String
  | [] => []
  | x :: xs => insertAsc x (sortAsc xs)

/-- If the first list is a prefix of the second, the remainder after
it. -/
def stripPre : List Char → List Char → Option (List Char)
  | [], l => some l
  | _ :: _, [] => none
  | p :: ps, c :: cs => if c = p then stripPre ps cs else none

/-- Fuel-driven splitting of a character list on every non-overlapping,
left-to-right occurrence of a (non-empty) separator — the semantics of
Rust's `str::split` on a literal pattern.  The fuel, set to the input
length by `splitOnL`, only makes the recursion structural and is never
exhausted. -/
def splitOnGo (sep : List Char) : Nat → List Char → List Char → List (List Char)
  | _, [], acc => [acc.reverse]
  | 0, l, acc => [acc.reverse ++ l]
  | fuel + 1, c :: cs, acc =>
    match stripPre sep (c :: cs) with
    | some rest => acc.reverse :: splitOnGo sep fuel rest []
    | none => splitOnGo sep fuel cs (c :: acc)

/-- `str::split` over character lists. -/
def splitOnL (sep l : List Char) : List (List Char) :=
  splitOnGo sep l.length l []

/-- `str::split` over strings, e.g. `data.split("1/0/")`. -/
def splitS (sep s : String) : List String :=
  (splitOnL sep.data s.data).map String.mk

/-- `str::starts_with` on a literal pattern. -/
def startsWithS (pre s : String) : Bool :=
  (stripPre pre.data s.data).isSome

/-- `str::contains` on a literal pattern: the pattern occurs iff
splitting on it yields more than one piece. -/
def containsS (pat s : String) : Bool :=
  (splitOnL pat.data s.data).length != 1

/-- One `\d+` run: non-empty, all ASCII digits. -/
def isDigitRun (cs : List Char) : Bool :=
  !cs.isEmpty && cs.all Char.isDigit

/-- The regex `^\d+\.\d+\.\d+\.\d+$` (gi.rs line 77): exactly four
dot-separated non-empty digit runs. -/
def isVersionName (s : String) : Bool :=
  match splitOnL ['.'] s.data with
  | [a, b, c, d] => isDigitRun a && isDigitRun b && isDigitRun c && isDigitRun d
  | _ => false

/-- Version-directory selection (gi.rs lines 77-85): filter the listing
by the version regex, sort, and take the last element —
`paths[paths.len() - 1]`, which panics when no name matched. -/
def selectVersion (names : List String) : Option String :=
  (sortAsc (names.filter isVersionName)).getLast?

/-- Outcome of the live probe `ureq::get(url).call()` followed by
`into_json::<serde_json::Value>()`: transport failure, parse failure, or
a parsed body, recorded by whether `j["retcode"] == 0`. -/
inductive ProbeOutcome where
  | transportFailure
  | parseFailure
  | parsed (retcodeIsZero : Bool)
deriving DecidableEq, Repr

/-- gi.rs lines 97-102: `.ok().and_then(|r| r.into_json().ok()).map(|j|
j["retcode"] == 0).unwrap_or_default()` — any transport or parse
failure yields `false`. -/
def validateOk : ProbeOutcome → Bool
  | .parsed b => b
  | _ => false

/-- Result of `pulls`: the returned URL, the two `anyhow!` errors, or
the panic of indexing the empty filtered vector. -/
inductive PullsOutcome where
  | ok (url : String)
  | urlOutdated
  | urlNotFound
  | panicked
deriving DecidableEq, Repr

/-- A cache record passes the test of gi.rs line 95: it starts with
`https` and contains `getGachaLog`. -/
def isGachaRecord (line : String) : Bool :=
  startsWithS "https" line && containsS "getGachaLog" line

/-- `line.split('\0').next()` (gi.rs line 96): the text before the
first NUL; `split` always yields a first piece. -/
def recordUrl (line : String) : String :=
  (splitS "\x00" line).headD ""

/-- The `for line in lines.iter().rev()` loop (gi.rs lines 94-110): on
the first matching record, probe its URL and return `Ok(url)` or
`Err("Warp url outdated")`; if no record matches, `Err("Couldn't find
warp url")`. -/
def scanRecords (probe : String → ProbeOutcome) : List String → PullsOutcome
  | [] => .urlNotFound
  | line :: rest =>
    if isGachaRecord line then
      if validateOk (probe (recordUrl line)) then .ok (recordUrl line) else .urlOutdated
    else scanRecords probe rest

/-- The external inputs of one `pulls` run. -/
structure PullsEnv where
  readDirNames : List String
  cacheData : String
  probe : String → ProbeOutcome

/-- `pulls` (gi.rs lines 72-113).  When no listed name matches the
version regex, `paths[paths.len() - 1]` panics; otherwise the scanner
splits the cache text on `"1/0/"` and walks the records in reverse. -/
def pulls (env : PullsEnv) : PullsOutcome :=
  match selectVersion env.readDirNames with
  | none => .panicked
  | some _ => scanRecords env.probe (splitS "1/0/" env.cacheData).reverse

/-! ### Install-path resolver (`game_path`, gi.rs lines 115-148)

`game_path` builds `%APPDATA%/../LocalLow/miHoYo/<folder>/output_log.txt`
for the global folder `Genshin Impact` and the CN folder `原神`, picks
the first existing one, and scans it line by line with the regex
`.:\\.+(GenshinImpact_Data|YuanShen_Data)`, returning the first line's
matched fragment.  The filesystem is external (existence of the two
candidate files and the sequence of `BufRead::lines()` results, each a
line or a read error), and so is the regex engine: `findMatch` models
`Regex::find` for the fixed pattern, returning the matched fragment. -/

/-- Result of `game_path`: the matched path fragment or one of the two
`anyhow!` errors, `"Can't find log file"` and
`"Couldn't find game path"`. -/
inductive GamePathOutcome where
  | ok (path : String)
  | logFileNotFound
  | pathNotFound
deriving DecidableEq, Repr

/-- The external inputs of one `game_path` run. -/
structure FsEnv where
  globalLogExists : Bool
  cnLogExists : Bool
  globalLines : List (Except Unit String)
  cnLines : List (Except Unit String)
  findMatch : String → Option String

/-- The line loop (gi.rs lines 137-145): a read error breaks out of the
loop (falling through to `Err("Couldn't find game path")`); the first
line on which `re.find` returns a match ends the scan with that
fragment. -/
def scanLines (findMatch : String → Option String) :
    List (Except Unit String) → GamePathOutcome
  | [] => .pathNotFound
  | .error _ :: _ => .pathNotFound
  | .ok line :: rest =>
    match findMatch line with
    | some m => .ok m
    | none => scanLines findMatch rest

/-- The candidate log file whose lines are scanned (gi.rs lines
129-133): `match (log_path.exists(), log_path_cn.exists())` — global
first, CN only when the global file is absent, error when neither
exists. -/
def selectedLines (env : FsEnv) : Option (List (Except Unit String)) :=
  match env.globalLogExists, env.cnLogExists with
  | true, _ => some env.globalLines
  | false, true => some env.cnLines
  | false, false => none

/-- `game_path` (gi.rs lines 115-148). -/
def game_path (env : FsEnv) : GamePathOutcome :=
  match selectedLines env with
  | some lines => scanLines env.findMatch lines
  | none => .logFileNotFound

/-! ### Lemmas about the achievement extractor -/

theorem filteredIds_cons (ids : List Nat) (q : AchRecord) (qs : List AchRecord) :
    filteredIds ids (q :: qs)
      = if ids.contains q.id && (q.status == 2 || q.status == 3)
        then q.id :: filteredIds ids qs else filteredIds ids qs := by
  rw [filteredIds, filteredIds, List.filter_cons]
  by_cases h : (ids.contains q.id && (q.status == 2 || q.status == 3)) = true
  · rw [if_pos h, if_pos h, List.map_cons]
  · rw [if_neg h, if_neg h]

theorem pushQuests_eq (ids acc : List Nat) (quests : List AchRecord) :
    pushQuests ids acc quests = acc ++ filteredIds ids quests := by
  induction quests generalizing acc with
  | nil => simp [pushQuests, filteredIds]
  | cons q qs ih =>
    rw [pushQuests, List.foldl_cons, filteredIds_cons]
    by_cases h : (ids.contains q.id && (q.status == 2 || q.status == 3)) = true
    · rw [if_pos h, if_pos h]
      rw [show List.foldl _ (acc ++ [q.id]) qs = pushQuests ids (acc ++ [q.id]) qs from rfl, ih]
      simp
    · rw [if_neg h, if_neg h]
      rw [show List.foldl _ acc qs = pushQuests ids acc qs from rfl, ih]

theorem sniffStep_nil (notifyId : Nat) (ids : List Nat) (c : Command) :
    sniffStep notifyId ids [] c = cmdResult notifyId ids c := by
  rw [sniffStep, cmdResult]
  by_cases h : (c.command_id == notifyId) = true
  · rw [if_pos h, if_pos h]
    cases hp : c.parse with
    | none => simp
    | some quests => simp [pushQuests_eq]
  · rw [if_neg h, if_neg h]

theorem sniffStep_nonempty (notifyId : Nat) (ids ach : List Nat) (c : Command)
    (h : ach.isEmpty = false) : sniffStep notifyId ids ach c = ach := by
  rw [sniffStep, h]
  by_cases hc : (c.command_id == notifyId) = true
  · rw [if_pos hc]; simp
  · rw [if_neg hc]

theorem processPacket_cons (notifyId : Nat) (ids ach : List Nat) (c : Command)
    (cs : List Command) :
    processPacket notifyId ids ach (c :: cs)
      = processPacket notifyId ids (sniffStep notifyId ids ach c) cs := rfl

theorem processPacket_nonempty (notifyId : Nat) (ids ach : List Nat) (cmds : List Command)
    (h : ach.isEmpty = false) : processPacket notifyId ids ach cmds = ach := by
  induction cmds with
  | nil => rfl
  | cons c cs ih => rw [processPacket_cons, sniffStep_nonempty _ _ _ _ h]; exact ih

theorem processPacket_nil_eq (notifyId : Nat) (ids : List Nat) (cmds : List Command) :
    processPacket notifyId ids [] cmds = firstNonEmpty (cmdResult notifyId ids) cmds := by
  induction cmds with
  | nil => rfl
  | cons c cs ih =>
    rw [processPacket_cons, sniffStep_nil, firstNonEmpty]
    by_cases h : (cmdResult notifyId ids c).isEmpty
    · rw [if_pos h, List.isEmpty_iff.mp h]
      exact ih
    · rw [if_neg h]
      exact processPacket_nonempty _ _ _ _ (Bool.not_eq_true _ ▸ h)

theorem sniffRun_nil_eq (notifyId : Nat) (ids : List Nat)
    (packets : List (Option (List Command))) :
    sniffRun notifyId ids packets [] = firstNonEmpty (pktResult notifyId ids) packets := by
  induction packets with
  | nil => rfl
  | cons p ps ih =>
    cases p with
    | none =>
      rw [sniffRun, firstNonEmpty]
      simp only [pktResult, List.isEmpty_nil, if_true]
      exact ih
    | some cmds =>
      rw [sniffRun, firstNonEmpty]
      simp only [pktResult, processPacket_nil_eq]
      by_cases h : (firstNonEmpty (cmdResult notifyId ids) cmds).isEmpty
      · rw [if_pos h, if_pos h, List.isEmpty_iff.mp h]
        exact ih
      · rw [if_neg h, if_neg h]

theorem firstNonEmpty_append (f : α → List Nat) (l₁ l₂ : List α) :
    firstNonEmpty f (l₁ ++ l₂)
      = if (firstNonEmpty f l₁).isEmpty then firstNonEmpty f l₂ else firstNonEmpty f l₁ := by
  induction l₁ with
  | nil => simp [firstNonEmpty]
  | cons x xs ih =>
    rw [List.cons_append, firstNonEmpty, firstNonEmpty]
    by_cases h : (f x).isEmpty
    · rw [if_pos h, if_pos h, ih]
    · rw [if_neg h, if_neg h, if_neg h]

theorem firstNonEmpty_flatten (notifyId : Nat) (ids : List Nat)
    (packets : List (Option (List Command))) :
    firstNonEmpty (pktResult notifyId ids) packets
      = firstNonEmpty (cmdResult notifyId ids) (flatCommands packets) := by
  induction packets with
  | nil => rfl
  | cons p ps ih =>
    have hflat : flatCommands (p :: ps) = (p.getD []) ++ flatCommands ps := by
      simp [flatCommands]
    rw [hflat, firstNonEmpty_append, firstNonEmpty]
    cases p with
    | none =>
      simp only [pktResult, List.isEmpty_nil, if_true, Option.getD_none]
      rw [← ih]
      simp [firstNonEmpty]
    | some cmds =>
      simp only [pktResult, Option.getD_some]
      by_cases h : (firstNonEmpty (cmdResult notifyId ids) cmds).isEmpty
      · rw [if_pos h, if_pos h, ih]
      · rw [if_neg h, if_neg h]

theorem firstNonEmpty_split (f : α → List Nat) (pre : List α) (x : α) (post : List α)
    (hpre : ∀ y ∈ pre, f y = []) (hx : f x ≠ []) :
    firstNonEmpty f (pre ++ x :: post) = f x := by
  induction pre with
  | nil =>
    rw [List.nil_append, firstNonEmpty, if_neg]
    simpa [List.isEmpty_iff] using hx
  | cons y ys ih =>
    rw [List.cons_append, firstNonEmpty, if_pos]
    · exact ih (fun z hz => hpre z (List.mem_cons_of_mem _ hz))
    · simp [List.isEmpty_iff, hpre y (List.mem_cons_self _ _)]

theorem firstNonEmpty_eq_nil_iff (f : α → List Nat) (l : List α) :
    firstNonEmpty f l = [] ↔ ∀ x ∈ l, f x = [] := by
  induction l with
  | nil => simp [firstNonEmpty]
  | cons x xs ih =>
    rw [firstNonEmpty]
    by_cases h : (f x).isEmpty
    · rw [if_pos h]
      simp only [List.mem_cons]
      constructor
      · intro hall y hy
        rcases hy with hy | hy
        · exact hy ▸ List.isEmpty_iff.mp h
        · exact ih.mp hall y hy
      · intro hall
        exact ih.mpr (fun y hy => hall y (Or.inr hy))
    · rw [if_neg h]
      constructor
      · intro hfx
        exact absurd (List.isEmpty_iff.mpr hfx) h
      · intro hall
        exact hall x (List.mem_cons_self _ _)

theorem mem_firstNonEmpty (f : α → List Nat) (l : List α) (v : Nat)
    (h : v ∈ firstNonEmpty f l) : ∃ x ∈ l, v ∈ f x := by
  induction l with
  | nil => simp [firstNonEmpty] at h
  | cons x xs ih =>
    rw [firstNonEmpty] at h
    by_cases he : (f x).isEmpty
    · rw [if_pos he] at h
      obtain ⟨y, hy, hv⟩ := ih h
      exact ⟨y, List.mem_cons_of_mem _ hy, hv⟩
    · rw [if_neg he] at h
      exact ⟨x, List.mem_cons_self _ _, h⟩

theorem mem_filteredIds (ids : List Nat) (quests : List AchRecord) (v : Nat)
    (h : v ∈ filteredIds ids quests) : v ∈ ids := by
  induction quests with
  | nil => simp [filteredIds] at h
  | cons q qs ih =>
    rw [filteredIds_cons] at h
    by_cases hq : (ids.contains q.id && (q.status == 2 || q.status == 3)) = true
    · rw [if_pos hq] at h
      rcases List.mem_cons.mp h with hv | hv
      · subst hv
        have hc : ids.contains q.id = true := by
          cases hcc : ids.contains q.id
          · rw [hcc] at hq; simp at hq
          · rfl
        simpa using hc
      · exact ih hv
    · rw [if_neg hq] at h
      exact ih h

theorem mem_cmdResult (notifyId : Nat) (ids : List Nat) (c : Command) (v : Nat)
    (h : v ∈ cmdResult notifyId ids c) : v ∈ ids := by
  rw [cmdResult] at h
  by_cases hc : (c.command_id == notifyId) = true
  · rw [if_pos hc] at h
    cases hp : c.parse with
    | none => rw [hp] at h; simp at h
    | some quests => rw [hp] at h; exact mem_filteredIds _ _ _ h
  · rw [if_neg hc] at h; simp at h

theorem sniffRun_eq_flat (notifyId : Nat) (ids : List Nat)
    (packets : List (Option (List Command))) :
    sniffRun notifyId ids packets []
      = firstNonEmpty (cmdResult notifyId ids) (flatCommands packets) := by
  rw [sniffRun_nil_eq, firstNonEmpty_flatten]

/-! ### Claim theorems: achievement extractor -/

/-- C1: if some command of the stream carries the achievement-notification
identifier, decodes to a record list, and its filtered sublist (IDs in
the interest set with a complete status code) is non-empty, then `sniff`
succeeds and returns exactly the first such command's filtered ID list;
later qualifying notifications contribute nothing. -/
theorem sniff_first_qualifying_wins (notifyId : Nat) (ids : List Nat)
    (packets : List (Option (List Command))) (pre post : List Command) (c : Command)
    (quests : List AchRecord)
    (hsplit : flatCommands packets = pre ++ c :: post)
    (hpre : ∀ d ∈ pre, cmdResult notifyId ids d = [])
    (hid : c.command_id = notifyId)
    (hparse : c.parse = some quests)
    (hne : filteredIds ids quests ≠ []) :
    sniff notifyId ids packets = Except.ok (filteredIds ids quests) := by
  have hc : cmdResult notifyId ids c = filteredIds ids quests := by
    rw [cmdResult, hparse, if_pos (by simp [hid])]
  have h1 : sniffRun notifyId ids packets [] = filteredIds ids quests := by
    rw [sniffRun_eq_flat, hsplit, firstNonEmpty_split _ _ _ _ hpre (by rw [hc]; exact hne)]
    exact hc
  rw [sniff]
  simp only [h1]
  rw [if_neg (by simpa [List.isEmpty_iff] using hne)]

/-- Closed instance of C1: two qualifying notifications in sequence; the
result is the first one's filtered IDs, not the union. -/
theorem sniff_first_qualifying_wins_witness :
    sniff 1 [101, 102, 103]
      [some [Command.mk 1 (some [AchRecord.mk 101 2, AchRecord.mk 102 1])],
       some [Command.mk 1 (some [AchRecord.mk 103 3])]]
      = Except.ok [101] := by
  have h := sniff_first_qualifying_wins 1 [101, 102, 103]
    [some [Command.mk 1 (some [AchRecord.mk 101 2, AchRecord.mk 102 1])],
     some [Command.mk 1 (some [AchRecord.mk 103 3])]]
    [] [Command.mk 1 (some [AchRecord.mk 103 3])]
    (Command.mk 1 (some [AchRecord.mk 101 2, AchRecord.mk 102 1]))
    [AchRecord.mk 101 2, AchRecord.mk 102 1]
    (by decide) (by intro d hd; cases hd) rfl rfl (by decide)
  rwa [show filteredIds [101, 102, 103] [AchRecord.mk 101 2, AchRecord.mk 102 1]
      = [101] by decide] at h

/-- C4: every achievement ID in a successful extraction result is a
member of the caller-supplied interest set. -/
theorem sniff_result_subset (notifyId : Nat) (ids : List Nat)
    (packets : List (Option (List Command))) (res : List Nat)
    (h : sniff notifyId ids packets = Except.ok res) : ∀ v ∈ res, v ∈ ids := by
  intro v hv
  rw [sniff] at h
  by_cases he : (sniffRun notifyId ids packets []).isEmpty
  · rw [if_pos he] at h; cases h
  · rw [if_neg he] at h
    have hres : sniffRun notifyId ids packets [] = res := by
      cases h; rfl
    rw [← hres, sniffRun_eq_flat] at hv
    obtain ⟨d, _, hvd⟩ := mem_firstNonEmpty _ _ _ hv
    exact mem_cmdResult _ _ _ _ hvd

/-- Closed instance of C4: a reported ID belongs to the interest set. -/
theorem sniff_result_subset_witness : 101 ∈ ([101, 102] : List Nat) :=
  sniff_result_subset 5 [101, 102]
    [some [Command.mk 5 (some [AchRecord.mk 101 3, AchRecord.mk 7 2])]] [101]
    rfl 101 (by decide)

/-- C6: `sniff` fails (with `No achievements found`) exactly when the
packet stream ends with no command ever contributing a non-empty
filtered record list; a successful result is never empty. -/
theorem sniff_error_iff_no_qualifying (notifyId : Nat) (ids : List Nat)
    (packets : List (Option (List Command))) :
    (sniff notifyId ids packets = Except.error SniffError.notFound ↔
      ∀ c ∈ flatCommands packets, cmdResult notifyId ids c = [])
    ∧ (∀ res, sniff notifyId ids packets = Except.ok res → res ≠ []) := by
  constructor
  · rw [← firstNonEmpty_eq_nil_iff, ← sniffRun_eq_flat, sniff]
    by_cases he : (sniffRun notifyId ids packets []).isEmpty
    · rw [if_pos he]
      simp [List.isEmpty_iff.mp he]
    · rw [if_neg he]
      constructor
      · intro h; cases h
      · intro h
        exact absurd (List.isEmpty_iff.mpr h) he
  · intro res h
    rw [sniff] at h
    by_cases he : (sniffRun notifyId ids packets []).isEmpty
    · rw [if_pos he] at h; cases h
    · rw [if_neg he] at h
      cases h
      intro hnil
      exact he (List.isEmpty_iff.mpr hnil)

/-- Closed instance of C6: an exhausted stream with no qualifying
notification yields the error. -/
theorem sniff_error_iff_no_qualifying_witness :
    sniff 1 [101] [none, some [Command.mk 2 none]] = Except.error SniffError.notFound :=
  (sniff_error_iff_no_qualifying 1 [101] [none, some [Command.mk 2 none]]).1.mpr
    (by intro c hc; fin_cases hc; decide)

/-! ### Lemmas about the pull-history scanner -/

theorem selectVersion_eq_none (names : List String)
    (h : names.filter isVersionName = []) : selectVersion names = none := by
  rw [selectVersion, h]
  rfl

theorem scanRecords_split (probe : String → ProbeOutcome) (pre : List String)
    (line : String) (post : List String)
    (hpre : ∀ l ∈ pre, isGachaRecord l = false) (hline : isGachaRecord line = true) :
    scanRecords probe (pre ++ line :: post)
      = if validateOk (probe (recordUrl line))
        then PullsOutcome.ok (recordUrl line) else PullsOutcome.urlOutdated := by
  induction pre with
  | nil => rw [List.nil_append, scanRecords, if_pos hline]
  | cons y ys ih =>
    rw [List.cons_append, scanRecords,
      if_neg (by rw [hpre y (List.mem_cons_self _ _)]; exact Bool.false_ne_true)]
    exact ih (fun z hz => hpre z (List.mem_cons_of_mem _ hz))

theorem scanRecords_notFound (probe : String → ProbeOutcome) (l : List String)
    (h : scanRecords probe l = PullsOutcome.urlNotFound) :
    ∀ x ∈ l, isGachaRecord x = false := by
  induction l with
  | nil => intro x hx; cases hx
  | cons y ys ih =>
    intro x hx
    rw [scanRecords] at h
    by_cases hy : isGachaRecord y = true
    · rw [if_pos hy] at h
      by_cases hv : validateOk (probe (recordUrl y)) = true
      · rw [if_pos hv] at h; cases h
      · rw [if_neg hv] at h; cases h
    · rw [if_neg hy] at h
      rcases List.mem_cons.mp hx with rfl | hx'
      · exact Bool.eq_false_iff.mpr hy
      · exact ih h x hx'

theorem scanRecords_ok (probe : String → ProbeOutcome) (l : List String) (url : String)
    (h : scanRecords probe l = PullsOutcome.ok url) : validateOk (probe url) = true := by
  induction l with
  | nil => cases h
  | cons y ys ih =>
    rw [scanRecords] at h
    by_cases hy : isGachaRecord y = true
    · rw [if_pos hy] at h
      by_cases hv : validateOk (probe (recordUrl y)) = true
      · rw [if_pos hv] at h
        cases h
        exact hv
      · rw [if_neg hv] at h; cases h
    · rw [if_neg hy] at h
      exact ih h

/-! ### Claim theorems: pull-history scanner errors -/

/-- C2 (claimed: `CacheDirNotFound`): when no subdirectory of the cache
root matches the version pattern, the code indexes
`paths[paths.len() - 1]` on an empty vector and panics; it does not
return an error of any kind. -/
theorem pulls_no_version_dir_panics (env : PullsEnv)
    (h : env.readDirNames.filter isVersionName = []) :
    pulls env = PullsOutcome.panicked := by
  rw [pulls, selectVersion_eq_none _ h]

/-- Closed instance of C2's failing input: a cache root whose
subdirectories match nothing ends in the panic outcome. -/
theorem pulls_no_version_dir_panics_witness :
    pulls ⟨["Cache", "blob_storage"], "data", fun _ => ProbeOutcome.transportFailure⟩
      = PullsOutcome.panicked :=
  pulls_no_version_dir_panics _ (by decide)

/-- C3: the scanner walks cache records in reverse file order; the
matching record nearest the end of the file is authoritative — if its
URL fails live validation the scan fails with `UrlOutdated` without
consulting any older record, and `UrlNotFound` arises only when no
record at all matches the https-prefix/endpoint-substring test. -/
theorem pulls_newest_record_authoritative (env : PullsEnv) (v : String)
    (hdir : selectVersion env.readDirNames = some v) :
    (∀ pre line post,
        (splitS "1/0/" env.cacheData).reverse = pre ++ line :: post →
        (∀ l ∈ pre, isGachaRecord l = false) →
        isGachaRecord line = true →
        validateOk (env.probe (recordUrl line)) = false →
        pulls env = PullsOutcome.urlOutdated)
    ∧ (pulls env = PullsOutcome.urlNotFound →
        ∀ l ∈ splitS "1/0/" env.cacheData, isGachaRecord l = false) := by
  have hpul : pulls env = scanRecords env.probe (splitS "1/0/" env.cacheData).reverse := by
    rw [pulls, hdir]
  constructor
  · intro pre line post hsplit hpre hline hv
    rw [hpul, hsplit, scanRecords_split _ _ _ _ hpre hline,
      if_neg (by rw [hv]; exact Bool.false_ne_true)]
  · intro h l hl
    rw [hpul] at h
    exact scanRecords_notFound _ _ h l (List.mem_reverse.mpr hl)

/-- Closed instance of C3: two records, the one nearest the end matching
but failing validation while the older one would validate; the scan
fails with `UrlOutdated`. -/
theorem pulls_newest_record_authoritative_witness :
    pulls ⟨["1.0.0.0"], "https://old/getGachaLog?y=2\x00tail1/0/https://h/getGachaLog?x=1\x00garbage",
        fun u => ProbeOutcome.parsed (u = "https://old/getGachaLog?y=2")⟩
      = PullsOutcome.urlOutdated :=
  (pulls_newest_record_authoritative _ "1.0.0.0" (by decide)).1
    [] "https://h/getGachaLog?x=1\x00garbage" ["https://old/getGachaLog?y=2\x00tail"]
    (by decide) (by intro l hl; cases hl) (by decide) (by decide)

/-- C9: a URL is returned only when the live probe of that URL produced
a parseable body whose `retcode` equals the success sentinel; transport
and parse failures count as validation failure. -/
theorem pulls_ok_requires_validation (env : PullsEnv) (url : String)
    (h : pulls env = PullsOutcome.ok url) :
    env.probe url = ProbeOutcome.parsed true := by
  cases hdir : selectVersion env.readDirNames with
  | none =>
    have hpul : pulls env = PullsOutcome.panicked := by rw [pulls, hdir]
    rw [hpul] at h
    cases h
  | some v =>
    have hpul : pulls env = scanRecords env.probe (splitS "1/0/" env.cacheData).reverse := by
      rw [pulls, hdir]
    rw [hpul] at h
    have hv := scanRecords_ok _ _ _ h
    cases hq : env.probe url with
    | transportFailure => rw [hq] at hv; cases hv
    | parseFailure => rw [hq] at hv; cases hv
    | parsed b =>
      rw [hq] at hv
      cases b
      · cases hv
      · rfl

/-- Closed instance of C9: the returned URL's probe parsed with a zero
`retcode`. -/
theorem pulls_ok_requires_validation_witness :
    (PullsEnv.mk ["1.0.0.0"] "junk1/0/https://h/getGachaLog?x=1\x00garbage"
        (fun _ => ProbeOutcome.parsed true)).probe "https://h/getGachaLog?x=1"
      = ProbeOutcome.parsed true :=
  pulls_ok_requires_validation _ "https://h/getGachaLog?x=1" (by decide)

/-! ### Order lemmas for the version-directory sort -/

theorem lexLt_irrefl (a : List Char) : lexLt a a = false := by
  induction a with
  | nil => rfl
  | cons x xs ih => simp [lexLt, ih]

theorem lexLt_asymm (a b : List Char) (h : lexLt a b = true) : lexLt b a = false := by
  induction a generalizing b with
  | nil =>
    cases b with
    | nil => cases h
    | cons y ys => rfl
  | cons x xs ih =>
    cases b with
    | nil => cases h
    | cons y ys =>
      rw [lexLt] at h ⊢
      by_cases hxy : x < y
      · have hne : y ≠ x := fun he => absurd (he ▸ hxy) (lt_irrefl x)
        rw [if_neg (lt_asymm hxy), if_neg hne]
      · rw [if_neg hxy] at h
        by_cases heq : x = y
        · rw [if_pos heq] at h
          subst heq
          rw [if_neg (lt_irrefl x), if_pos rfl]
          exact ih _ h
        · rw [if_neg heq] at h
          cases h

theorem lexLt_neg_trans (a b c : List Char)
    (hba : lexLt b a = false) (hcb : lexLt c b = false) : lexLt c a = false := by
  induction a generalizing b c with
  | nil =>
    cases c with
    | nil => rfl
    | cons z zs => rfl
  | cons x xs ih =>
    cases b with
    | nil => cases hba
    | cons y ys =>
      cases c with
      | nil => cases hcb
      | cons z zs =>
        rw [lexLt] at hba hcb ⊢
        by_cases hyx : y < x
        · rw [if_pos hyx] at hba; cases hba
        · rw [if_neg hyx] at hba
          by_cases hzy : z < y
          · rw [if_pos hzy] at hcb; cases hcb
          · rw [if_neg hzy] at hcb
            have hzx : ¬ z < x := fun h => hzy (lt_of_lt_of_le h (le_of_not_lt hyx))
            rw [if_neg hzx]
            by_cases hzxeq : z = x
            · rw [if_pos hzxeq]
              have hyz : y ≤ z := le_of_not_lt hzy
              have hxy : x ≤ y := le_of_not_lt hyx
              have hyxeq : y = x := le_antisymm (hzxeq ▸ hyz) hxy
              rw [if_pos hyxeq] at hba
              rw [if_pos (hzxeq.trans hyxeq.symm)] at hcb
              exact ih _ _ hba hcb
            · rw [if_neg hzxeq]

theorem strLe_refl (a : String) : strLe a a = true := by
  rw [strLe, lexLt_irrefl]
  rfl

theorem strLe_of_not (a b : String) (h : strLe a b = false) : strLe b a = true := by
  rw [strLe] at h ⊢
  rw [Bool.not_eq_false'] at h
  rw [lexLt_asymm _ _ h]
  rfl

theorem strLe_trans (a b c : String) (h1 : strLe a b = true) (h2 : strLe b c = true) :
    strLe a c = true := by
  rw [strLe] at h1 h2 ⊢
  rw [Bool.not_eq_true'] at h1 h2
  rw [Bool.not_eq_true', lexLt_neg_trans _ _ _ h1 h2]

theorem mem_insertAsc (x : String) (l : List String) (y : String) :
    y ∈ insertAsc x l ↔ y = x ∨ y ∈ l := by
  induction l with
  | nil => simp [insertAsc]
  | cons z zs ih =>
    rw [insertAsc]
    by_cases h : strLe x z = true
    · rw [if_pos h]
      simp only [List.mem_cons]
    · rw [if_neg h]
      simp only [List.mem_cons, ih]
      tauto

theorem mem_sortAsc (l : List String) (y : String) : y ∈ sortAsc l ↔ y ∈ l := by
  induction l with
  | nil => simp [sortAsc]
  | cons x xs ih =>
    rw [sortAsc, mem_insertAsc]
    simp only [List.mem_cons, ih]

theorem pairwise_insertAsc (x : String) (l : List String)
    (hl : l.Pairwise (fun a b => strLe a b = true)) :
    (insertAsc x l).Pairwise (fun a b => strLe a b = true) := by
  induction l with
  | nil => simp [insertAsc]
  | cons z zs ih =>
    rcases List.pairwise_cons.mp hl with ⟨hz, hzs⟩
    rw [insertAsc]
    by_cases h : strLe x z = true
    · rw [if_pos h]
      refine List.pairwise_cons.mpr ⟨?_, hl⟩
      intro y hy
      rcases List.mem_cons.mp hy with rfl | hy'
      · exact h
      · exact strLe_trans _ _ _ h (hz y hy')
    · rw [if_neg h]
      refine List.pairwise_cons.mpr ⟨?_, ih hzs⟩
      intro y hy
      rcases (mem_insertAsc x zs y).mp hy with h1 | hy'
      · rw [h1]
        cases hb : strLe x z with
        | false => exact strLe_of_not _ _ hb
        | true => exact absurd hb h
      · exact hz y hy'

theorem pairwise_sortAsc (l : List String) :
    (sortAsc l).Pairwise (fun a b => strLe a b = true) := by
  induction l with
  | nil => simp [sortAsc]
  | cons x xs ih => exact pairwise_insertAsc x _ ih

theorem pairwise_getLast_max (l : List String) (m : String)
    (hp : l.Pairwise (fun a b => strLe a b = true))
    (hm : l.getLast? = some m) : ∀ y ∈ l, strLe y m = true := by
  induction l with
  | nil => cases hm
  | cons x xs ih =>
    intro y hy
    cases xs with
    | nil =>
      rw [List.getLast?_singleton] at hm
      cases hm
      rcases List.mem_singleton.mp hy with rfl
      exact strLe_refl _
    | cons z zs =>
      have hm' : (z :: zs).getLast? = some m := by
        rw [← hm, List.getLast?_cons_cons]
      rcases List.mem_cons.mp hy with rfl | hy'
      · exact (List.pairwise_cons.mp hp).1 m (List.mem_of_mem_getLast? hm')
      · exact ih (List.pairwise_cons.mp hp).2 hm' y hy'

theorem selectVersion_some_spec (names : List String) (m : String)
    (h : selectVersion names = some m) :
    m ∈ names ∧ isVersionName m = true ∧
      ∀ n ∈ names, isVersionName n = true → strLe n m = true := by
  rw [selectVersion] at h
  have hmem : m ∈ names.filter isVersionName :=
    (mem_sortAsc _ _).mp (List.mem_of_mem_getLast? h)
  refine ⟨(List.mem_filter.mp hmem).1, (List.mem_filter.mp hmem).2, ?_⟩
  intro n hn hv
  exact pairwise_getLast_max _ _ (pairwise_sortAsc _) h n
    ((mem_sortAsc _ _).mpr (List.mem_filter.mpr ⟨hn, hv⟩))

/-! ### Claim theorems: version-directory selection -/

/-- C5 counterexample: on the claim's own inputs
`{"1.2.3", "1.10.0", "2.0.0"}` the scanner does not pick `"2.0.0"` —
the version pattern `^\d+\.\d+\.\d+\.\d+$` requires FOUR dotted
components, so none of these three-component names matches, no
directory is selected, and `pulls` hits the empty-vector panic. -/
theorem selectVersion_counterexample :
    selectVersion ["1.2.3", "1.10.0", "2.0.0"] = none ∧
      selectVersion ["1.2.3", "1.10.0", "2.0.0"] ≠ some "2.0.0" ∧
      pulls ⟨["1.2.3", "1.10.0", "2.0.0"], "", fun _ => ProbeOutcome.parsed true⟩
        = PullsOutcome.panicked := by
  refine ⟨by decide, by decide, ?_⟩
  exact pulls_no_version_dir_panics _ (by decide)

/-- C5 amended: among the subdirectory names matching the
four-component pattern `^\d+\.\d+\.\d+\.\d+$`, the scanner selects the
greatest under ordinary string ordering, not numeric per-component
comparison: the selected name is a matching member of the listing that
every matching name is string-`≤`; concretely, `{"1.2.3.4", "1.10.0.0",
"2.0.0.0"}` yields `"2.0.0.0"` and `{"1.9.0.0", "1.10.0.0"}` yields
`"1.9.0.0"`. -/
theorem selectVersion_string_max :
    (∀ names m, selectVersion names = some m →
      m ∈ names ∧ isVersionName m = true ∧
        ∀ n ∈ names, isVersionName n = true → strLe n m = true)
    ∧ selectVersion ["1.2.3.4", "1.10.0.0", "2.0.0.0"] = some "2.0.0.0"
    ∧ selectVersion ["1.9.0.0", "1.10.0.0"] = some "1.9.0.0" :=
  ⟨selectVersion_some_spec, by decide, by decide⟩

/-- Closed instance of C5 (amended): the pick from
`{"1.2.3.4", "1.10.0.0", "2.0.0.0"}` is a matching name that
string-dominates `"1.10.0.0"`. -/
theorem selectVersion_string_max_witness :
    isVersionName "2.0.0.0" = true ∧ strLe "1.10.0.0" "2.0.0.0" = true :=
  ⟨(selectVersion_string_max.1 ["1.2.3.4", "1.10.0.0", "2.0.0.0"] "2.0.0.0"
      (by decide)).2.1,
   (selectVersion_string_max.1 ["1.2.3.4", "1.10.0.0", "2.0.0.0"] "2.0.0.0"
      (by decide)).2.2 "1.10.0.0" (by decide) (by decide)⟩

/-! ### Lemmas about the install-path resolver -/

theorem scanLines_split (f : String → Option String) (pre : List (Except Unit String))
    (line : String) (m : String) (rest : List (Except Unit String))
    (hpre : ∀ e ∈ pre, ∃ l, e = Except.ok l ∧ f l = none)
    (hm : f line = some m) :
    scanLines f (pre ++ Except.ok line :: rest) = GamePathOutcome.ok m := by
  induction pre with
  | nil => rw [List.nil_append, scanLines, hm]
  | cons e es ih =>
    obtain ⟨l, rfl, hl⟩ := hpre e (List.mem_cons_self _ _)
    rw [List.cons_append, scanLines, hl]
    exact ih (fun e' he' => hpre e' (List.mem_cons_of_mem _ he'))

theorem scanLines_no_match (f : String → Option String) (lines : List (Except Unit String))
    (h : ∀ e ∈ lines, ∀ l, e = Except.ok l → f l = none) :
    scanLines f lines = GamePathOutcome.pathNotFound := by
  induction lines with
  | nil => rfl
  | cons e es ih =>
    cases e with
    | error u => rfl
    | ok l =>
      rw [scanLines, h (Except.ok l) (List.mem_cons_self _ _) l rfl]
      exact ih (fun e' he' => h e' (List.mem_cons_of_mem _ he'))

theorem scanLines_error_stops (f : String → Option String)
    (pre rest : List (Except Unit String)) (u : Unit)
    (hpre : ∀ e ∈ pre, ∃ l, e = Except.ok l ∧ f l = none) :
    scanLines f (pre ++ Except.error u :: rest) = GamePathOutcome.pathNotFound := by
  induction pre with
  | nil => rfl
  | cons e es ih =>
    obtain ⟨l, rfl, hl⟩ := hpre e (List.mem_cons_self _ _)
    rw [List.cons_append, scanLines, hl]
    exact ih (fun e' he' => hpre e' (List.mem_cons_of_mem _ he'))

/-! ### Claim theorems: install-path resolver -/

/-- C7: the resolver scans the selected log file top to bottom and
returns the fragment matched on the FIRST matching line, ignoring later
lines; it fails with the log-file-not-found error when neither candidate
log file exists, and with the path-not-found error when the scanned file
has no matching line — the two `anyhow!` not-found errors of
gi.rs lines 132 and 147. -/
theorem game_path_first_match (env : FsEnv) :
    (∀ lines pre line m rest,
        selectedLines env = some lines →
        lines = pre ++ Except.ok line :: rest →
        (∀ e ∈ pre, ∃ l, e = Except.ok l ∧ env.findMatch l = none) →
        env.findMatch line = some m →
        game_path env = GamePathOutcome.ok m)
    ∧ (env.globalLogExists = false → env.cnLogExists = false →
        game_path env = GamePathOutcome.logFileNotFound)
    ∧ (∀ lines, selectedLines env = some lines →
        (∀ e ∈ lines, ∀ l, e = Except.ok l → env.findMatch l = none) →
        game_path env = GamePathOutcome.pathNotFound) := by
  refine ⟨?_, ?_, ?_⟩
  · intro lines pre line m rest hsel hsplit hpre hm
    rw [game_path, hsel, hsplit]
    exact scanLines_split _ _ _ _ _ hpre hm
  · intro h1 h2
    rw [game_path, selectedLines, h1, h2]
  · intro lines hsel hnone
    rw [game_path, hsel]
    exact scanLines_no_match _ _ hnone

/-- Closed instance of C7: with two matching lines in the log, the
first one's fragment is returned. -/
theorem game_path_first_match_witness :
    game_path
      (FsEnv.mk true false
        [Except.ok "noise", Except.ok "first", Except.ok "second"] []
        (fun l =>
          if l = "first" then some "C:\\A\\GenshinImpact_Data"
          else if l = "second" then some "D:\\B\\YuanShen_Data" else none))
      = GamePathOutcome.ok "C:\\A\\GenshinImpact_Data" :=
  (game_path_first_match _).1
    [Except.ok "noise", Except.ok "first", Except.ok "second"]
    [Except.ok "noise"] "first" "C:\\A\\GenshinImpact_Data" [Except.ok "second"]
    rfl rfl
    (by intro e he; fin_cases he; exact ⟨"noise", rfl, by decide⟩)
    (by decide)

/-- C8: a read error partway through the log file, before any line has
matched, ends the scan as if the file had ended: no I/O error is
surfaced and the outcome is the path-not-found error (the same result as
scanning only the lines before the error). -/
theorem game_path_read_error_as_eof (env : FsEnv)
    (pre rest : List (Except Unit String)) (u : Unit)
    (hsel : selectedLines env = some (pre ++ Except.error u :: rest))
    (hpre : ∀ e ∈ pre, ∃ l, e = Except.ok l ∧ env.findMatch l = none) :
    game_path env = GamePathOutcome.pathNotFound ∧
      game_path env = scanLines env.findMatch pre := by
  have h1 : game_path env = GamePathOutcome.pathNotFound := by
    rw [game_path, hsel]
    exact scanLines_error_stops _ _ _ _ hpre
  refine ⟨h1, ?_⟩
  rw [h1, scanLines_no_match]
  intro e he l hel
  obtain ⟨l', hel', hl'⟩ := hpre e he
  rw [hel'] at hel
  cases hel
  exact hl'

/-- Closed instance of C8: an error entry before the matching line
yields the not-found outcome, not the match. -/
theorem game_path_read_error_as_eof_witness :
    game_path
      (FsEnv.mk true false
        [Except.ok "noise", Except.error (), Except.ok "late"] []
        (fun l => if l = "late" then some "C:\\A\\GenshinImpact_Data" else none))
      = GamePathOutcome.pathNotFound :=
  (game_path_read_error_as_eof
    (FsEnv.mk true false
      [Except.ok "noise", Except.error (), Except.ok "late"] []
      (fun l => if l = "late" then some "C:\\A\\GenshinImpact_Data" else none))
    [Except.ok "noise"] [Except.ok "late"] ()
    rfl (by intro e he; fin_cases he; exact ⟨"noise", rfl, by decide⟩)).1

/-- C10: the global-locale log file (`Genshin Impact`) is scanned
whenever it exists, even if the CN-locale one (`原神`) also exists; the
CN-locale log file is scanned only when the global one is absent. -/
theorem game_path_candidate_priority (env : FsEnv) :
    (env.globalLogExists = true →
      game_path env = scanLines env.findMatch env.globalLines)
    ∧ (env.globalLogExists = false → env.cnLogExists = true →
      game_path env = scanLines env.findMatch env.cnLines) := by
  constructor
  · intro h
    rw [game_path, selectedLines, h]
  · intro h1 h2
    rw [game_path, selectedLines, h1, h2]

/-- Closed instance of C10: with both log files present, the global one
is scanned and its match returned, not the CN one's. -/
theorem game_path_candidate_priority_witness :
    game_path
      (FsEnv.mk true true [Except.ok "g"] [Except.ok "c"]
        (fun l =>
          if l = "g" then some "C:\\A\\GenshinImpact_Data"
          else if l = "c" then some "D:\\B\\YuanShen_Data" else none))
      = GamePathOutcome.ok "C:\\A\\GenshinImpact_Data" := by
  rw [(game_path_candidate_priority _).1 rfl]
  decide

end GI
